import Mathlib

/-!
# Verification of the closed-loop Koopman cross-validation repository

Shallow embedding of the algorithmic core of `dodo.py` and
`optuna_study_open_loop.py`:

* the closed-loop block-matrix composer of `action_evaluate_models`
  (numpy matrices are embedded as `List (List ℚ)`);
* the worker wait loop of `action_run_cross_validation`;
* the argument contract between the orchestrator and the worker script;
* the fold loop of the open-loop `objective` with `ThresholdPruner`
  semantics;
* the grouped train/test split and the `suggest_float` parameter cache.
-/

namespace ClKoopman

/-- A numpy 2-D array embedded as a list of rows of rationals. -/
abbrev Mat := List (List ℚ)

/-- Number of rows (`M.shape[0]`). -/
def rowsOf (M : Mat) : Nat := M.length

/-- Number of columns (`M.shape[1]`), read off the first row. -/
def colsOf (M : Mat) : Nat := (M.headD []).length

/-- `M` has `m` rows, each of length `n`. -/
def isMat (m n : Nat) (M : Mat) : Prop :=
  M.length = m ∧ ∀ r ∈ M, r.length = n

/-- Dot product of two rows (missing entries behave as absent terms). -/
def dot (u v : List ℚ) : ℚ := (List.zipWith (fun a b => a * b) u v).sum

/-- Column `j` of `M`. -/
def colAt (M : Mat) (j : Nat) : List ℚ := M.map (fun r => r.getD j 0)

/-- Matrix product `A @ B` (numpy `@`). -/
def matMul (A B : Mat) : Mat :=
  A.map (fun r => (List.range (colsOf B)).map (fun j => dot r (colAt B j)))

/-- `np.hstack`: append the rows pairwise. -/
def hstack (A B : Mat) : Mat := List.zipWith (fun r s => r ++ s) A B

/-- `np.vstack` / stacking the two block rows of `np.block`. -/
def vstack (A B : Mat) : Mat := A ++ B

/-- `np.eye n`. -/
def eye (n : Nat) : Mat :=
  (List.range n).map (fun i => (List.range n).map (fun j => if i = j then 1 else 0))

/-- `np.zeros (m, n)`. -/
def zeros (m n : Nat) : Mat := List.replicate m (List.replicate n 0)

/-- Entrywise negation (`-B @ C` in the top block row). -/
def matNeg (A : Mat) : Mat := A.map (fun r => r.map (fun a => -a))

/-- Entrywise difference (`A_p - B_p @ D_c @ C_p` in the bottom block row). -/
def matSub (A B : Mat) : Mat :=
  List.zipWith (fun r s => List.zipWith (fun a b => a - b) r s) A B

/-- `M[:, :n]`. -/
def takeCols (n : Nat) (M : Mat) : Mat := M.map (List.take n)

/-- `M[:, n:]`. -/
def dropCols (n : Nat) (M : Mat) : Mat := M.map (List.drop n)

/-- `M.T`. -/
def transpose (M : Mat) : Mat := (List.range (colsOf M)).map (fun j => colAt M j)

/-- `np.block` for one row of four blocks. -/
def blockRow4 (A B C D : Mat) : Mat := hstack (hstack (hstack A B) C) D

/-- The padded output map of `action_evaluate_models`
(`dodo.py` lines 503–509 and 535–541):
`C_plant @ np.hstack([np.eye(C_plant.shape[1]), np.zeros((C_plant.shape[1], padCols))])`,
where `padCols` is `n_states_out_ - Bc.shape[0] - C_plant.shape[1]` in the
closed-loop branch and `n_states_out_ - C_plant.shape[1]` in the open-loop
branch. -/
def cpPadded (cPlant : Mat) (padCols : Nat) : Mat :=
  matMul cPlant (hstack (eye (colsOf cPlant)) (zeros (colsOf cPlant) padCols))

/-- The closed-loop block assembly of `action_evaluate_models`
(`dodo.py` lines 510–514 and 542–546):
`np.block([[Ac, -Bc @ Cp, Bc, zeros], [Bp @ Cc, Ap - Bp @ Dc @ Cp, Bp @ Dc, Bp]])`. -/
def uBlock (ac bc cc dc ap bp cp : Mat) : Mat :=
  vstack
    (blockRow4 ac (matNeg (matMul bc cp)) bc (zeros (rowsOf bc) (colsOf bp)))
    (blockRow4 (matMul bp cc) (matSub ap (matMul (matMul bp dc) cp)) (matMul bp dc) bp)

/-- `U_test_cl` as computed in `dodo.py` lines 500–514: the plant operator
`Up` is split into `Ap = Up[:, :Up.shape[0]]` and `Bp = Up[:, Up.shape[0]:]`,
the output map is padded against `kp_cl.n_states_out_` (which counts the
controller states), and the blocks are assembled. -/
def uTestCl (up ac bc cc dc cPlant : Mat) (nStatesOut : Nat) : Mat :=
  uBlock ac bc cc dc (takeCols (rowsOf up) up) (dropCols (rowsOf up) up)
    (cpPadded cPlant (nStatesOut - rowsOf bc - colsOf cPlant))

/-- `U_test_ol` as computed in `dodo.py` lines 532–546: same assembly, but
the padding width is `kp_ol.n_states_out_ - C_plant.shape[1]` (no controller
states in the open-loop pipeline). -/
def uTestOl (up ac bc cc dc cPlant : Mat) (nStatesOut : Nat) : Mat :=
  uBlock ac bc cc dc (takeCols (rowsOf up) up) (dropCols (rowsOf up) up)
    (cpPadded cPlant (nStatesOut - colsOf cPlant))

end ClKoopman

namespace ClKoopman

/-! ## Shape lemmas for the composer -/

theorem isMat_matMul (A B : Mat) (m n : Nat) (hA : A.length = m)
    (hB : colsOf B = n) : isMat m n (matMul A B) := by
  constructor
  · simpa [matMul] using hA
  · intro r hr
    simp only [matMul, List.mem_map] at hr
    obtain ⟨s, _, rfl⟩ := hr
    simpa using hB

theorem isMat_hstack (A B : Mat) (m n₁ n₂ : Nat) (hA : isMat m n₁ A)
    (hB : isMat m n₂ B) : isMat m (n₁ + n₂) (hstack A B) := by
  obtain ⟨hAl, hAr⟩ := hA
  obtain ⟨hBl, hBr⟩ := hB
  constructor
  · simp [hstack, hAl, hBl]
  · intro r hr
    rw [hstack, List.mem_iff_getElem] at hr
    obtain ⟨i, hilt, hi⟩ := hr
    rw [List.getElem_zipWith] at hi
    subst hi
    have hiA : i < A.length := by
      simp only [List.length_zipWith, hAl, hBl] at hilt ⊢; omega
    have hiB : i < B.length := by
      simp only [List.length_zipWith, hAl, hBl] at hilt ⊢; omega
    simp only [List.length_append]
    rw [hAr _ (List.getElem_mem hiA), hBr _ (List.getElem_mem hiB)]

theorem isMat_vstack (A B : Mat) (m₁ m₂ n : Nat) (hA : isMat m₁ n A)
    (hB : isMat m₂ n B) : isMat (m₁ + m₂) n (vstack A B) := by
  obtain ⟨hAl, hAr⟩ := hA
  obtain ⟨hBl, hBr⟩ := hB
  refine ⟨by simp [vstack, hAl, hBl], ?_⟩
  intro r hr
  rcases List.mem_append.mp hr with h | h
  · exact hAr r h
  · exact hBr r h

theorem isMat_zeros (m n : Nat) : isMat m n (zeros m n) := by
  refine ⟨by simp [zeros], ?_⟩
  intro r hr
  rw [zeros] at hr
  rw [List.eq_of_mem_replicate hr]
  simp

theorem isMat_eye (n : Nat) : isMat n n (eye n) := by
  refine ⟨by simp [eye], ?_⟩
  intro r hr
  simp only [eye, List.mem_map] at hr
  obtain ⟨i, _, rfl⟩ := hr
  simp

theorem isMat_matNeg (A : Mat) (m n : Nat) (hA : isMat m n A) :
    isMat m n (matNeg A) := by
  obtain ⟨hAl, hAr⟩ := hA
  refine ⟨by simp [matNeg, hAl], ?_⟩
  intro r hr
  simp only [matNeg, List.mem_map] at hr
  obtain ⟨s, hs, rfl⟩ := hr
  simpa using hAr s hs

theorem isMat_matSub (A B : Mat) (m n : Nat) (hA : isMat m n A)
    (hB : isMat m n B) : isMat m n (matSub A B) := by
  obtain ⟨hAl, hAr⟩ := hA
  obtain ⟨hBl, hBr⟩ := hB
  constructor
  · simp [matSub, hAl, hBl]
  · intro r hr
    rw [matSub, List.mem_iff_getElem] at hr
    obtain ⟨i, hilt, hi⟩ := hr
    rw [List.getElem_zipWith] at hi
    subst hi
    have hiA : i < A.length := by
      simp only [List.length_zipWith, hAl, hBl] at hilt ⊢; omega
    have hiB : i < B.length := by
      simp only [List.length_zipWith, hAl, hBl] at hilt ⊢; omega
    simp only [List.length_zipWith]
    rw [hAr _ (List.getElem_mem hiA), hBr _ (List.getElem_mem hiB)]
    omega

theorem isMat_takeCols (A : Mat) (m n k : Nat) (hA : isMat m n A) (hk : k ≤ n) :
    isMat m k (takeCols k A) := by
  obtain ⟨hAl, hAr⟩ := hA
  refine ⟨by simp [takeCols, hAl], ?_⟩
  intro r hr
  simp only [takeCols, List.mem_map] at hr
  obtain ⟨s, hs, rfl⟩ := hr
  simp only [List.length_take, hAr s hs]
  omega

theorem isMat_dropCols (A : Mat) (m n k : Nat) (hA : isMat m n A) :
    isMat m (n - k) (dropCols k A) := by
  obtain ⟨hAl, hAr⟩ := hA
  refine ⟨by simp [dropCols, hAl], ?_⟩
  intro r hr
  simp only [dropCols, List.mem_map] at hr
  obtain ⟨s, hs, rfl⟩ := hr
  simp [hAr s hs]

theorem colsOf_of_isMat (A : Mat) (m n : Nat) (hm : 0 < m) (hA : isMat m n A) :
    colsOf A = n := by
  obtain ⟨hAl, hAr⟩ := hA
  rcases A with _ | ⟨r, A⟩
  · simp at hAl; omega
  · exact hAr r (List.mem_cons_self r A)

theorem rowsOf_of_isMat (A : Mat) (m n : Nat) (hA : isMat m n A) :
    rowsOf A = m := hA.1

end ClKoopman

namespace ClKoopman

theorem isMat_cpPadded (cPlant : Mat) (ny p k : Nat) (hcp : isMat ny p cPlant)
    (hny : 0 < ny) (hp : 0 < p) : isMat ny (p + k) (cpPadded cPlant k) := by
  rw [cpPadded, colsOf_of_isMat cPlant ny p hny hcp]
  refine isMat_matMul cPlant _ ny (p + k) hcp.1 ?_
  exact colsOf_of_isMat _ p (p + k) hp
    (isMat_hstack _ _ p p k (isMat_eye p) (isMat_zeros p k))

theorem isMat_uBlock (ac bc cc dc ap bp cp : Mat) (nc np ny nu : Nat)
    (hac : isMat nc nc ac) (hbc : isMat nc ny bc) (hcc : isMat nu nc cc)
    (hdc : isMat nu ny dc) (hap : isMat np np ap) (hbp : isMat np nu bp)
    (hcp : isMat ny np cp) (hnp : 0 < np) (hny : 0 < ny) (hnu : 0 < nu) :
    isMat (nc + np) (nc + np + ny + nu) (uBlock ac bc cc dc ap bp cp) := by
  have hcolcp : colsOf cp = np := colsOf_of_isMat cp ny np hny hcp
  have hcolcc : colsOf cc = nc := colsOf_of_isMat cc nu nc hnu hcc
  have hcoldc : colsOf dc = ny := colsOf_of_isMat dc nu ny hnu hdc
  have hcolbp : colsOf bp = nu := colsOf_of_isMat bp np nu hnp hbp
  have h1 : isMat nc np (matNeg (matMul bc cp)) :=
    isMat_matNeg _ nc np (isMat_matMul bc cp nc np hbc.1 hcolcp)
  have h2 : isMat nc nu (zeros (rowsOf bc) (colsOf bp)) := by
    rw [hcolbp, show rowsOf bc = nc from hbc.1]
    exact isMat_zeros nc nu
  have htop : isMat nc (nc + np + ny + nu)
      (blockRow4 ac (matNeg (matMul bc cp)) bc (zeros (rowsOf bc) (colsOf bp))) := by
    rw [blockRow4]
    exact isMat_hstack _ _ nc (nc + np + ny) nu
      (isMat_hstack _ _ nc (nc + np) ny (isMat_hstack _ _ nc nc np hac h1) hbc) h2
  have h3 : isMat np nc (matMul bp cc) := isMat_matMul bp cc np nc hbp.1 hcolcc
  have h4 : isMat np ny (matMul bp dc) := isMat_matMul bp dc np ny hbp.1 hcoldc
  have h5 : isMat np np (matSub ap (matMul (matMul bp dc) cp)) :=
    isMat_matSub _ _ np np hap (isMat_matMul _ cp np np h4.1 hcolcp)
  have hbot : isMat np (nc + np + ny + nu)
      (blockRow4 (matMul bp cc) (matSub ap (matMul (matMul bp dc) cp))
        (matMul bp dc) bp) := by
    rw [blockRow4]
    exact isMat_hstack _ _ np (nc + np + ny) nu
      (isMat_hstack _ _ np (nc + np) ny (isMat_hstack _ _ np nc np h3 h5) h4) hbp
  rw [uBlock]
  exact isMat_vstack _ _ nc np _ htop hbot

/-- **C6.** For any valid-shaped inputs (controller `(Ac, Bc, Cc, Dc)` with
`nc` states, `ny` reference channels and `nu` outputs; plant operator
`Up = [Ap | Bp]` over `np` lifted states and `nu` inputs; output map
`C_plant` with `p ≤ np` columns), the composed matrices `U_test_cl` (built
against `n_states_out_ = nc + np`) and `U_test_ol` (built against
`n_states_out_ = np`) both have exactly `nc + np` rows (controller state
dimension plus plant lifted-state dimension) and exactly
`nc + np + ny + nu` columns (that sum plus reference and feed-forward
dimensions). -/
theorem uTest_dimension_invariant (up ac bc cc dc cPlant : Mat)
    (nc np ny nu p : Nat)
    (hup : isMat np (np + nu) up) (hac : isMat nc nc ac) (hbc : isMat nc ny bc)
    (hcc : isMat nu nc cc) (hdc : isMat nu ny dc) (hcp : isMat ny p cPlant)
    (hnp : 0 < np) (hny : 0 < ny) (hnu : 0 < nu) (hp : 0 < p) (hpn : p ≤ np) :
    isMat (nc + np) (nc + np + ny + nu) (uTestCl up ac bc cc dc cPlant (nc + np)) ∧
    isMat (nc + np) (nc + np + ny + nu) (uTestOl up ac bc cc dc cPlant np) := by
  have hrup : rowsOf up = np := hup.1
  have hrbc : rowsOf bc = nc := hbc.1
  have hccp : colsOf cPlant = p := colsOf_of_isMat cPlant ny p hny hcp
  have hap : isMat np np (takeCols (rowsOf up) up) := by
    rw [hrup]
    exact isMat_takeCols up np (np + nu) np hup (Nat.le_add_right _ _)
  have hbp : isMat np nu (dropCols (rowsOf up) up) := by
    rw [hrup]
    have h := isMat_dropCols up np (np + nu) np hup
    rwa [Nat.add_sub_cancel_left] at h
  constructor
  · have hpad : isMat ny np
        (cpPadded cPlant (nc + np - rowsOf bc - colsOf cPlant)) := by
      rw [hrbc, hccp]
      have h := isMat_cpPadded cPlant ny p (nc + np - nc - p) hcp hny hp
      have he : p + (nc + np - nc - p) = np := by omega
      rwa [he] at h
    rw [uTestCl]
    exact isMat_uBlock _ _ _ _ _ _ _ nc np ny nu hac hbc hcc hdc hap hbp hpad
      hnp hny hnu
  · have hpad : isMat ny np (cpPadded cPlant (np - colsOf cPlant)) := by
      rw [hccp]
      have h := isMat_cpPadded cPlant ny p (np - p) hcp hny hp
      have he : p + (np - p) = np := by omega
      rwa [he] at h
    rw [uTestOl]
    exact isMat_uBlock _ _ _ _ _ _ _ nc np ny nu hac hbc hcc hdc hap hbp hpad
      hnp hny hnu

/-- Witness for `uTest_dimension_invariant` at the all-scalar instance. -/
theorem uTest_dimension_invariant_witness :
    isMat 2 4 (uTestCl [[2, 3]] [[5]] [[7]] [[1]] [[0]] [[1]] 2) ∧
    isMat 2 4 (uTestOl [[2, 3]] [[5]] [[7]] [[1]] [[0]] [[1]] 1) :=
  uTest_dimension_invariant [[2, 3]] [[5]] [[7]] [[1]] [[0]] [[1]] 1 1 1 1 1
    (by constructor <;> simp [isMat]) (by constructor <;> simp [isMat])
    (by constructor <;> simp [isMat]) (by constructor <;> simp [isMat])
    (by constructor <;> simp [isMat]) (by constructor <;> simp [isMat])
    (by decide) (by decide) (by decide) (by decide) (by decide)

end ClKoopman

namespace ClKoopman

/-- **C4.** For the scalar inputs `A_c=[[0.5]]`, `B_c=[[1]]`, `C_c=[[1]]`,
`D_c=[[0]]`, `A_p=[[0.9]]`, `B_p=[[1]]`, `C_plant=[[1]]` (so
`Up = [A_p | B_p] = [[0.9, 1]]`), with one-dimensional reference and
feed-forward signals and no extra lifted states to pad
(`n_states_out_ = 2 = dim(x_c) + dim(x_p)`), the composition of
`action_evaluate_models` produces exactly
`U_cl = [[0.5, -1, 1, 0], [1, 0.9, 0, 1]]`, rows ordered
[controller-state-row, plant-state-row] and columns ordered
[x_c, x_p, reference, feedforward]. -/
theorem uTestCl_literal_example :
    uTestCl [[(0.9 : ℚ), 1]] [[(0.5 : ℚ)]] [[1]] [[1]] [[0]] [[1]] 2
      = [[(0.5 : ℚ), -1, 1, 0], [1, (0.9 : ℚ), 0, 1]] := by
  norm_num [uTestCl, uBlock, blockRow4, cpPadded, matMul, hstack, vstack, eye,
    zeros, matNeg, matSub, takeCols, dropCols, rowsOf, colsOf, dot, colAt,
    List.range_succ]

end ClKoopman

namespace ClKoopman

/-! ## The search orchestrator of `action_run_cross_validation` -/

/-- One launched worker process: its pid and the exit code its `wait()`
returns. -/
structure Proc where
  pid : Nat
  returnCode : Int
  deriving DecidableEq

/-- `OPTUNA_TPE_SEED` (`dodo.py` line 25). -/
def optunaTpeSeed : Nat := 3501

/-- `SKLEARN_SPLIT_SEED` (`dodo.py` line 26). -/
def sklearnSplitSeedConst : Nat := 1234

/-- `n_processes` (`dodo.py` line 417). -/
def nProcesses : Nat := 6

/-- `n_trials` (`dodo.py` line 419). -/
def nTrialsPerProcess : Nat := 30

/-- The wait loop of `action_run_cross_validation` (`dodo.py` lines 433–436):
processes are waited on strictly in launch order, and directly after each
`p.wait()` the return code is tested; a `RuntimeError` naming that process
and its code is raised iff the code is negative.  `.error (pid, code)` is the
raised error, `.ok ()` is normal fall-through. -/
def waitLoop : List Proc → Except (Nat × Int) Unit
  | [] => .ok ()
  | p :: rest =>
    if p.returnCode < 0 then .error (p.pid, p.returnCode) else waitLoop rest

/-- The processes the loop has actually called `wait()` on by the time it
raises or returns: every process up to and including the first one with a
negative return code. -/
def waitedOn : List Proc → List Proc
  | [] => []
  | p :: rest =>
    if p.returnCode < 0 then [p] else p :: waitedOn rest

end ClKoopman

namespace ClKoopman

/-- **C1 counterexample.** With two launched workers, the first exiting with
code −9 and the second with code 0, the orchestrator's loop raises the error
naming the first process while having waited on only that one process: the
second worker was never waited on before the raise, refuting the claim that
all N−1 other workers are waited on first. -/
theorem waitLoop_orphan_counterexample :
    waitLoop [⟨100, -9⟩, ⟨101, 0⟩] = .error (100, -9) ∧
    waitedOn [⟨100, -9⟩, ⟨101, 0⟩] = [⟨100, -9⟩] ∧
    Proc.mk 101 0 ∉ waitedOn [⟨100, -9⟩, ⟨101, 0⟩] :=
  ⟨rfl, by decide, by decide⟩

/-- **C1 (amended).** If the worker at position `k` (in launch order) is the
first to exit with a negative code, the orchestrator raises a `RuntimeError`
naming exactly that process and its exit code, having waited on exactly the
processes launched up to and including the failing one — not on the workers
launched after it. -/
theorem waitLoop_raises_at_first_negative (ps : List Proc) (k : Nat)
    (hk : k < ps.length) (hneg : (ps.getD k ⟨0, 0⟩).returnCode < 0)
    (hpre : ∀ j, j < k → 0 ≤ (ps.getD j ⟨0, 0⟩).returnCode) :
    waitLoop ps = .error ((ps.getD k ⟨0, 0⟩).pid, (ps.getD k ⟨0, 0⟩).returnCode) ∧
    waitedOn ps = ps.take (k + 1) := by
  induction ps generalizing k with
  | nil => exact absurd hk (Nat.not_lt_zero k)
  | cons p rest ih =>
    cases k with
    | zero =>
      simp only [List.getD_cons_zero] at hneg ⊢
      exact ⟨by simp [waitLoop, hneg], by simp [waitedOn, hneg]⟩
    | succ k =>
      have hp : 0 ≤ p.returnCode := by
        simpa using hpre 0 (Nat.succ_pos k)
      have hnp : ¬ p.returnCode < 0 := by omega
      have hk' : k < rest.length := by simpa using hk
      have hneg' : (rest.getD k ⟨0, 0⟩).returnCode < 0 := by
        simpa using hneg
      have hpre' : ∀ j, j < k → 0 ≤ (rest.getD j ⟨0, 0⟩).returnCode := by
        intro j hj
        simpa using hpre (j + 1) (Nat.succ_lt_succ hj)
      obtain ⟨h1, h2⟩ := ih k hk' hneg' hpre'
      refine ⟨?_, ?_⟩
      · simpa [waitLoop, hnp] using h1
      · simpa [waitedOn, hnp] using h2

/-- Witness for `waitLoop_raises_at_first_negative`: three workers, the
second killed by a signal (code −15); the loop raises naming pid 2 with
code −15, having waited on workers 1 and 2 only. -/
theorem waitLoop_raises_at_first_negative_witness :
    waitLoop [⟨1, 0⟩, ⟨2, -15⟩, ⟨3, 0⟩] = .error (2, -15) ∧
    waitedOn [⟨1, 0⟩, ⟨2, -15⟩, ⟨3, 0⟩] = [⟨1, 0⟩, ⟨2, -15⟩] := by
  have h := waitLoop_raises_at_first_negative [⟨1, 0⟩, ⟨2, -15⟩, ⟨3, 0⟩] 1
    (by decide) (by decide)
    (by intro j hj
        have hj0 : j = 0 := by omega
        subst hj0
        decide)
  simpa using h

/-- **C3 counterexample.** A single worker exiting with the positive
abnormal status 2 (e.g. an `argparse` failure) is not treated as a fatal
failure: the orchestrator's loop falls through normally and raises nothing,
refuting the claim that every non-zero exit status aborts the search. -/
theorem waitLoop_positive_exit_counterexample :
    waitLoop [⟨200, 2⟩] = .ok () ∧ (2 : Int) ≠ 0 :=
  ⟨rfl, by decide⟩

/-- **C3 (amended).** The orchestrator raises no error exactly when every
worker's exit code is non-negative: only negative statuses (signal deaths)
are treated as fatal worker failures, while any non-negative exit code —
zero or positive, including positive abnormal statuses — is treated as
normal completion. -/
theorem waitLoop_ok_iff_no_negative (ps : List Proc) :
    waitLoop ps = .ok () ↔ ∀ p ∈ ps, 0 ≤ p.returnCode := by
  induction ps with
  | nil => simp [waitLoop]
  | cons p rest ih =>
    by_cases h : p.returnCode < 0
    · simp only [waitLoop, if_pos h]
      constructor
      · intro hco
        exact absurd hco (by simp)
      · intro hall
        exact absurd (hall p (List.mem_cons_self p rest)) (by omega)
    · simp only [waitLoop, if_neg h]
      rw [ih]
      constructor
      · intro hall q hq
        rcases List.mem_cons.mp hq with rfl | hq'
        · omega
        · exact hall q hq'
      · intro hall q hq
        exact hall q (List.mem_cons_of_mem p hq)

end ClKoopman

namespace ClKoopman

/-! ## The orchestrator/worker invocation boundary -/

/-- The positional command line the orchestrator passes to each worker after
the interpreter and the script path (`dodo.py` lines 423–431): training-data
path, lifted-feature-set path, study storage URL, the trial-count budget
`str(n_trials)` with `n_trials = 30`, and the split seed
`str(SKLEARN_SPLIT_SEED)` with `SKLEARN_SPLIT_SEED = 1234` — five
arguments. -/
def launcherArgv (experimentPath liftingFunctionsPath storageUrl : String) :
    List String :=
  [experimentPath, liftingFunctionsPath, storageUrl,
   toString nTrialsPerProcess, toString sklearnSplitSeedConst]

/-- The four positional arguments `optuna_study_open_loop.main` declares
(`optuna_study_open_loop.py` lines 16–34): `experiment_path`,
`lifting_functions_path`, `study_path` and the integer
`sklearn_split_seed`.  There is no trial-count argument. -/
structure WorkerArgs where
  experimentPath : String
  liftingFunctionsPath : String
  studyPath : String
  sklearnSplitSeed : Int

/-- `argparse` applied to the worker's declared positionals: parsing succeeds
only on exactly four positional arguments whose fourth is an integer; any
other count makes `argparse` error out, terminating the worker with the
positive exit status 2 before the study is touched. -/
def parseWorkerArgs : List String → Option WorkerArgs
  | [e, l, s, seed] =>
    (seed.toInt?).map (fun z =>
      { experimentPath := e, liftingFunctionsPath := l, studyPath := s,
        sklearnSplitSeed := z })
  | _ => none

/-- The trial budget handed to `study.optimize` by the worker
(`optuna_study_open_loop.py` lines 110–112): the call is
`study.optimize(objective)` with no `n_trials`, i.e. no budget at all. -/
def workerOptimizeTrialBudget : Option Nat := none

/-- **C2.** The five-argument command line built by
`action_run_cross_validation` does not parse under the worker's declared
four positional arguments — `optuna_study_open_loop.main` accepts no
trial-count budget — and the worker's `study.optimize` call carries no
trial budget either, so the worker cannot execute "exactly the budgeted
number of trials".  (The claim matches `dodo.py` and the spec; the worker
script is the slip.) -/
theorem workerArgv_contract_mismatch (e l s : String) :
    launcherArgv e l s =
      [e, l, s, toString nTrialsPerProcess, toString sklearnSplitSeedConst] ∧
    (launcherArgv e l s).length = 5 ∧
    parseWorkerArgs (launcherArgv e l s) = none ∧
    workerOptimizeTrialBudget = none :=
  ⟨rfl, rfl, rfl, rfl⟩

end ClKoopman

namespace ClKoopman

/-! ## The cross-validation objective and the pruning policy -/

/-- Terminal outcome of one `objective` call: either
`optuna.TrialPruned` was raised after some folds, or the trial completed
with its final value.  `reported` is the list of per-fold scores that were
appended to `r2` and passed to `trial.report`, in fold order. -/
inductive TrialOutcome
  | pruned (reported : List ℚ)
  | completed (reported : List ℚ) (value : ℚ)
  deriving DecidableEq

/-- The lower bound of `optuna.pruners.ThresholdPruner(lower=-10)`
configured on the study (`dodo.py` line 411). -/
def thresholdPrunerLower : ℚ := -10

/-- The fold loop of `objective` (`optuna_study_open_loop.py` lines 52–104),
with the per-fold coefficient-of-determination scores supplied as an oracle
list in fold order.  Each fold appends its score `r2_i` to `r2`, reports it,
and then `trial.should_prune()` is checked: under `ThresholdPruner(lower)`
it signals iff the just-reported value is below `lower`, in which case
`optuna.TrialPruned` is raised and no further fold runs.  If every fold
passes, the trial completes with `np.mean(r2)`. -/
def runFolds (lower : ℚ) (acc : List ℚ) : List ℚ → TrialOutcome
  | [] => .completed acc (acc.sum / acc.length)
  | v :: rest =>
    if v < lower then .pruned (acc ++ [v])
    else runFolds lower (acc ++ [v]) rest

/-- One full `objective` evaluation at the configured pruner threshold. -/
def objectiveRun (scores : List ℚ) : TrialOutcome :=
  runFolds thresholdPrunerLower [] scores

theorem runFolds_pruned_at_first (lower : ℚ) (scores : List ℚ) (k : Nat)
    (hk : k < scores.length) (hneg : scores.getD k 0 < lower)
    (hpre : ∀ j, j < k → ¬ scores.getD j 0 < lower) :
    ∀ acc, runFolds lower acc scores = .pruned (acc ++ scores.take (k + 1)) := by
  induction scores generalizing k with
  | nil => exact absurd hk (Nat.not_lt_zero k)
  | cons v rest ih =>
    intro acc
    cases k with
    | zero =>
      simp only [List.getD_cons_zero] at hneg
      simp [runFolds, hneg]
    | succ k =>
      have hv : ¬ v < lower := by
        simpa using hpre 0 (Nat.succ_pos k)
      have hk' : k < rest.length := by simpa using hk
      have hneg' : rest.getD k 0 < lower := by simpa using hneg
      have hpre' : ∀ j, j < k → ¬ rest.getD j 0 < lower := by
        intro j hj
        simpa using hpre (j + 1) (Nat.succ_lt_succ hj)
      rw [runFolds, if_neg hv, ih k hk' hneg' hpre' (acc ++ [v])]
      simp

theorem runFolds_completed (lower : ℚ) (scores : List ℚ)
    (h : ∀ v ∈ scores, ¬ v < lower) :
    ∀ acc, runFolds lower acc scores =
      .completed (acc ++ scores) ((acc ++ scores).sum / (acc ++ scores).length) := by
  induction scores with
  | nil => intro acc; simp [runFolds]
  | cons v rest ih =>
    intro acc
    have hv : ¬ v < lower := h v (List.mem_cons_self v rest)
    have hrest : ∀ w ∈ rest, ¬ w < lower := fun w hw =>
      h w (List.mem_cons_of_mem v hw)
    rw [runFolds, if_neg hv, ih hrest (acc ++ [v])]
    simp

/-- **C5.** If fold `k` is the first whose score falls below the
`ThresholdPruner` lower bound −10, the trial terminates pruned right there:
the recorded intermediate scores are exactly the `k + 1` actually computed
fold scores (so they remain valid) and no later fold runs.  In particular a
trial whose first-fold score is below −10 records no second-fold score. -/
theorem objective_pruned_below_threshold (scores : List ℚ) (k : Nat)
    (hk : k < scores.length) (hneg : scores.getD k 0 < thresholdPrunerLower)
    (hpre : ∀ j, j < k → ¬ scores.getD j 0 < thresholdPrunerLower) :
    objectiveRun scores = .pruned (scores.take (k + 1)) := by
  have h := runFolds_pruned_at_first thresholdPrunerLower scores k hk hneg hpre []
  simpa [objectiveRun] using h

/-- Witness for `objective_pruned_below_threshold`: a trial whose first-fold
score −25 is below −10 is pruned with only that single score recorded — the
second fold's score is never computed. -/
theorem objective_pruned_below_threshold_witness :
    objectiveRun [-25, 5, 7] = .pruned [-25] := by
  have h := objective_pruned_below_threshold [-25, 5, 7] 0 (by decide)
    (by norm_num [thresholdPrunerLower])
    (by intro j hj; exact absurd hj (Nat.not_lt_zero j))
  simpa using h

/-- **C8.** A trial none of whose fold scores falls below the pruner's lower
bound completes (is not pruned) and returns exactly the arithmetic mean of
the per-fold scores recorded in fold order. -/
theorem objective_completed_mean (scores : List ℚ)
    (h : ∀ v ∈ scores, ¬ v < thresholdPrunerLower) :
    objectiveRun scores = .completed scores (scores.sum / scores.length) := by
  have hc := runFolds_completed thresholdPrunerLower scores h []
  simpa [objectiveRun] using hc

/-- Witness for `objective_completed_mean`: fold scores `[1, 2, 6]` (all at
least −10) complete with value `(1 + 2 + 6) / 3 = 3`. -/
theorem objective_completed_mean_witness :
    objectiveRun [1, 2, 6] = .completed [1, 2, 6] 3 := by
  have h := objective_completed_mean [1, 2, 6]
    (by intro v hv
        simp only [List.mem_cons, List.not_mem_nil, or_false] at hv
        rcases hv with rfl | rfl | rfl <;> norm_num [thresholdPrunerLower])
  norm_num at h
  exact h

end ClKoopman

namespace ClKoopman

/-! ## The grouped train/test split -/

/-- The grouping key of the split: the episode column `X_train[:, 0]`
(`optuna_study_open_loop.py` line 50). -/
def episodeColumn (X : Mat) : List ℚ := X.map (fun r => r.getD 0 0)

/-- Fold-train indices of one `GroupShuffleSplit` fold.  The sklearn
splitter (an external collaborator, used at
`optuna_study_open_loop.py` lines 43–51) draws a subset of the unique group
values for the test side of each fold; a sample index goes to the test side
iff its group value lies in the drawn subset, and to the train side
otherwise.  The drawn subset is the `testGroups` oracle, covering every
configured fold count and test fraction. -/
def foldTrainIndices (groups : List ℚ) (testGroups : List ℚ) : List Nat :=
  (List.range groups.length).filter (fun i => !decide (groups.getD i 0 ∈ testGroups))

/-- Fold-test indices of one `GroupShuffleSplit` fold (see
`foldTrainIndices`). -/
def foldTestIndices (groups : List ℚ) (testGroups : List ℚ) : List Nat :=
  (List.range groups.length).filter (fun i => decide (groups.getD i 0 ∈ testGroups))

/-- **C7.** In every fold of the grouped split of the training matrix
(grouping key = episode index, the first column of `X_train`), no episode
index appears both under a fold-train index and under a fold-test index:
for any sample `i` on the train side and any sample `j` on the test side of
the same fold, their episode indices differ. -/
theorem grouped_split_no_episode_leakage (X : Mat) (testGroups : List ℚ)
    (i j : Nat)
    (hi : i ∈ foldTrainIndices (episodeColumn X) testGroups)
    (hj : j ∈ foldTestIndices (episodeColumn X) testGroups) :
    (episodeColumn X).getD i 0 ≠ (episodeColumn X).getD j 0 := by
  rw [foldTrainIndices, List.mem_filter] at hi
  rw [foldTestIndices, List.mem_filter] at hj
  intro heq
  rw [heq] at hi
  simp only [decide_eq_true_eq, Bool.not_eq_eq_eq_not, Bool.not_true,
    decide_eq_false_iff_not] at hi hj
  exact hi.2 hj.2

/-- Witness for `grouped_split_no_episode_leakage`: four samples over the
two episodes 0 and 1, with episode 1 drawn for the test side; sample 0
(train, episode 0) and sample 2 (test, episode 1) have distinct episode
indices. -/
theorem grouped_split_no_episode_leakage_witness :
    0 ∈ foldTrainIndices (episodeColumn [[0, 5], [0, 6], [1, 7], [1, 8]]) [1] ∧
    2 ∈ foldTestIndices (episodeColumn [[0, 5], [0, 6], [1, 7], [1, 8]]) [1] ∧
    (episodeColumn [[0, 5], [0, 6], [1, 7], [1, 8]]).getD 0 0 ≠
      (episodeColumn [[0, 5], [0, 6], [1, 7], [1, 8]]).getD 2 0 :=
  ⟨by decide, by decide,
   grouped_split_no_episode_leakage [[0, 5], [0, 6], [1, 7], [1, 8]] [1] 0 2
     (by decide) (by decide)⟩

end ClKoopman

namespace ClKoopman

/-! ## Per-trial hyperparameter suggestion -/

/-- The parameter store of one running `optuna.Trial`. -/
structure TrialParams where
  params : List (String × ℚ)

/-- `trial.suggest_float(name, ...)`: if the trial already carries a
parameter of this name, the stored value is returned unchanged; otherwise
the study's sampler draws a value, which is stored under the name and
returned.  Modelled from optuna's documented semantics for repeated
`suggest` calls with the same name inside one trial (optuna is an external
collaborator); the sampler's draw is the `sampler` oracle. -/
def suggestFloat (sampler : String → ℚ) (t : TrialParams) (name : String) :
    ℚ × TrialParams :=
  match t.params.lookup name with
  | some v => (v, t)
  | none => (sampler name, ⟨(name, sampler name) :: t.params⟩)

/-- The `alpha` values used by the successive folds of one `objective` call
(`optuna_study_open_loop.py` lines 54–71): each fold iteration calls
`trial.suggest_float('alpha', low=1e-12, high=1e12)` once and fits its plant
model with the returned value. -/
def foldAlphas (sampler : String → ℚ) : Nat → TrialParams → List ℚ
  | 0, _ => []
  | n + 1, t =>
    (suggestFloat sampler t "alpha").1 ::
      foldAlphas sampler n (suggestFloat sampler t "alpha").2

theorem foldAlphas_of_lookup (sampler : String → ℚ) (n : Nat)
    (t : TrialParams) (a : ℚ) (h : t.params.lookup "alpha" = some a) :
    foldAlphas sampler n t = List.replicate n a := by
  induction n generalizing t with
  | zero => rfl
  | succ n ih =>
    rw [foldAlphas, suggestFloat, h]
    simpa [List.replicate] using ih t h

/-- **C10.** In a fresh trial, `alpha` is suggested once per fold inside the
fold loop under the one parameter name `'alpha'`; the first fold stores the
sampler's draw and every later fold gets the stored value back, so all `n`
folds fit their plant model with the identical value — each trial evaluates
exactly one hyperparameter value. -/
theorem foldAlphas_all_identical (sampler : String → ℚ) (n : Nat) :
    foldAlphas sampler n ⟨[]⟩ = List.replicate n (sampler "alpha") := by
  cases n with
  | zero => rfl
  | succ n =>
    rw [foldAlphas, suggestFloat]
    simp only [List.lookup]
    rw [foldAlphas_of_lookup sampler n ⟨[("alpha", sampler "alpha")]⟩
      (sampler "alpha") (by simp [List.lookup])]
    simp [List.replicate]

end ClKoopman

namespace ClKoopman

/-! ## Fitting a pipeline with a pre-supplied coefficient matrix -/

/-- A `pykoop.DataRegressor` as used in `action_evaluate_models`
(`dodo.py` lines 518 and 550): it carries a fixed coefficient matrix
(`coef=U_test_cl.T` resp. `coef=U_test_ol.T`) plus the fitted state of the
pipeline's lifting functions. -/
structure DataRegressor where
  coef : Mat
  liftingFitted : Bool

/-- Modelled from the spec: `DataRegressor.fit` lives in the external
`pykoop` package, not under `src/`.  Per the spec (§4.2: the fixed-matrix
variant "only validates matrix dimensions and fits auxiliary (lifting) state
without altering the coefficients") and the call-site comment at `dodo.py`
lines 522–524 ("fit will not change the Koopman matrix set in
`DataRegressor`, it will just check the dimensions and fit the lifting
functions"), fitting checks that the lifted data's feature dimension matches
the pre-supplied coefficient matrix and marks the lifting state fitted; a
dimension mismatch is a fatal configuration error (`none`), raised before
any regression work. -/
def DataRegressor.fit (r : DataRegressor) (liftedData : Mat) :
    Option DataRegressor :=
  if colsOf liftedData = rowsOf r.coef then
    some { coef := r.coef, liftingFitted := true }
  else
    none

/-- **C9.** Whenever fitting a pipeline whose regressor carries a
pre-supplied fixed coefficient matrix succeeds, the coefficient matrix of
the fitted regressor is exactly the pre-supplied one, for every input data
matrix: only the dimension check and the lifting state depend on the
data. -/
theorem dataRegressor_fit_preserves_coef (r r' : DataRegressor)
    (liftedData : Mat) (h : DataRegressor.fit r liftedData = some r') :
    r'.coef = r.coef := by
  rw [DataRegressor.fit] at h
  split at h
  · cases h
    rfl
  · cases h

/-- Witness for `dataRegressor_fit_preserves_coef`: a regressor carrying the
2×2 coefficient matrix `[[1, 2], [3, 4]]`, fitted on a data matrix with two
features, keeps exactly that coefficient matrix. -/
theorem dataRegressor_fit_preserves_coef_witness :
    DataRegressor.fit ⟨[[1, 2], [3, 4]], false⟩ [[5, 6], [7, 8], [9, 10]] =
      some ⟨[[1, 2], [3, 4]], true⟩ ∧
    (DataRegressor.mk [[1, 2], [3, 4]] true).coef = [[1, 2], [3, 4]] :=
  ⟨rfl,
   dataRegressor_fit_preserves_coef ⟨[[1, 2], [3, 4]], false⟩
     ⟨[[1, 2], [3, 4]], true⟩ [[5, 6], [7, 8], [9, 10]] rfl⟩

end ClKoopman
